import Mathlib

/-!
A shallow embedding of the availability/scoring pipeline of `src/scheduler.py`
(the Clockwork repository), together with proofs about it.

Conventions of the embedding:
* Python integers (minute offsets) are `Int`; Python `//` is `Int.fdiv` and
  Python `%` (with a positive modulus) is `Int.emod`.
* Python `float` scores and penalty/bonus values are modelled as `ℚ`; every
  arithmetic operation the scorer performs on them (addition, subtraction,
  multiplication by a small integer, `max`) is exact on the rationals.
* Python dicts `penalties`/`bonuses` are association lists; a subscript
  access `d[k]` is a lookup that raises `KeyError(k)` when absent, modelled
  as `Except String` with the missing key as the error value.
* Python lists are `List`; `sorted`/`list.sort` are stable sorts, modelled by
  `List.insertionSort` (any two stable sorts of the same list with respect to
  the same total preorder agree element for element).
* The optional `window_start_dt` parameter of the scoring functions only
  changes how day-of-week and minute-of-day are derived (real calendar dates
  instead of a Monday-origin reference week); we embed the week-relative mode
  (`window_start_dt = None`), which is the mode the week-relative claims and
  scenarios are about.  Slot positions are unaffected by that parameter.
-/

namespace Clockwork

/-- `Interval = Tuple[int, int]`: half-open `[start, end)` in minutes. -/
abbrev Interval := Int × Int

/-- `Event` dataclass.  Python's `end` field is a Lean keyword; it is named
`stop` here. -/
structure Event where
  start : Int
  stop : Int
  timezone : String
  title : String := ""
  description : String := ""
deriving DecidableEq, Repr

/-- `PersonPreferences` dataclass. -/
structure PersonPreferences where
  preferred_meeting_times : List String
  avoid_back_to_back : Bool
  min_break_minutes : Int
deriving DecidableEq, Repr

/-- `Person` dataclass. -/
structure Person where
  id : String
  name : String
  email : String
  events : List Event
  timezone : String
  preferences : PersonPreferences
deriving DecidableEq, Repr

/-- `OrgSettings` dataclass; the `penalties`/`bonuses` dicts are association
lists from key to rational value. -/
structure OrgSettings where
  work_hours_start : Int
  work_hours_end : Int
  lunch_start : Int
  lunch_end : Int
  penalties : List (String × ℚ)
  bonuses : List (String × ℚ)
  interval_minutes : Int := 15
deriving DecidableEq, Repr

/-- `ScoredSlot` dataclass (`end` renamed to `stop`). -/
structure ScoredSlot where
  start : Int
  stop : Int
  score : ℚ
  reasons : List String
deriving DecidableEq, Repr

/-- `d[k]` on a Python dict: value when present, `KeyError(k)` when absent. -/
def getKey (d : List (String × ℚ)) (k : String) : Except String ℚ :=
  match d.lookup k with
  | some v => Except.ok v
  | none => Except.error k

/-- `clip_interval`: clamp `iv` to `[w_start, w_end)`, dropping it when the
clipped interval collapses. -/
def clip_interval (iv : Interval) (w_start w_end : Int) : Option Interval :=
  let s2 := max iv.1 w_start
  let e2 := min iv.2 w_end
  if e2 ≤ s2 then none else some (s2, e2)

/-- The sort key of `merge_intervals`: lexicographic on `(start, end)`,
matching Python's `sorted(intervals, key=lambda x: (x[0], x[1]))`. -/
def ivLe (a b : Interval) : Prop :=
  a.1 < b.1 ∨ (a.1 = b.1 ∧ a.2 ≤ b.2)

instance : DecidableRel ivLe := fun a b => by
  unfold ivLe; infer_instance

instance : IsTotal Interval ivLe := by
  constructor
  intro a b
  unfold ivLe
  omega

instance : IsTrans Interval ivLe := by
  constructor
  intro a b c hab hbc
  unfold ivLe at *
  omega

/-- The scan of `merge_intervals`: `cur` is the running interval
(`merged[-1]` in the Python), extended in place while the next interval's
start is `≤` its end, emitted when a gap is found. -/
def mergeLoop (cur : Interval) : List Interval → List Interval
  | [] => [cur]
  | (s, e) :: rest =>
      if s ≤ cur.2 then
        mergeLoop (cur.1, max cur.2 e) rest
      else
        cur :: mergeLoop (s, e) rest

/-- `merge_intervals`: sort by `(start, end)`, then merge
overlapping/touching intervals in one scan. -/
def merge_intervals (intervals : List Interval) : List Interval :=
  match List.insertionSort ivLe intervals with
  | [] => []
  | first :: rest => mergeLoop first rest

/-- The loop of `busy_to_free`: `cur` is the cursor; the `[]` case is the
trailing-gap check after the `for` loop, and the `w_end ≤ e` branch is the
`break` (after which the trailing check cannot fire). -/
def btfLoop (w_end : Int) (cur : Int) : List Interval → List Interval
  | [] => if cur < w_end then [(cur, w_end)] else []
  | (s, e) :: rest =>
      let gap : List Interval := if cur < s then [(cur, s)] else []
      if w_end ≤ e then gap else gap ++ btfLoop w_end e rest

/-- `busy_to_free`: complement of the merged busy intervals inside the
window. -/
def busy_to_free (busy : List Interval) (w_start w_end : Int) : List Interval :=
  btfLoop w_end w_start busy

/-- `get_all_busy_intervals`: clip every event of every person to the window
and merge. -/
def get_all_busy_intervals (people : List Person) (window_start window_end : Int) :
    List Interval :=
  merge_intervals
    (people.flatMap fun person =>
      person.events.filterMap fun event =>
        clip_interval (event.start, event.stop) window_start window_end)

/-- The body of the `while current + duration <= free_end` loop of
`generate_candidate_slots`, with an explicit iteration bound (`fuel`).  The
Python loop does not terminate when `interval_minutes ≤ 0` (the step never
advances), so the embedding guards on `0 < interval`; every claim about the
generator assumes `interval_minutes > 0`. -/
def slotsFromGo (duration interval free_end : Int) : Nat → Int → List Interval
  | 0, _ => []
  | Nat.succ fuel, current =>
      if 0 < interval ∧ current + duration ≤ free_end then
        (current, current + duration) ::
          slotsFromGo duration interval free_end fuel (current + interval)
      else []

/-- The `while` loop of `generate_candidate_slots`.  The loop guard can hold
for at most `free_end - duration - current + 1` iterations, because `current`
advances by `interval ≥ 1` each time; starting the bounded loop with exactly
that fuel therefore realizes the unbounded `while` loop (the `fuel = 0` case
is never reached while the guard still holds). -/
def slotsFrom (duration interval free_end current : Int) : List Interval :=
  slotsFromGo duration interval free_end
    (free_end - duration - current + 1).toNat current

/-- The first candidate start of a gap: Python's
`((free_start + interval_minutes - 1) // interval_minutes) * interval_minutes`
(`//` is floor division, i.e. `Int.fdiv`). -/
def firstStart (free_start interval : Int) : Int :=
  Int.fdiv (free_start + interval - 1) interval * interval

/-- `generate_candidate_slots`: grid-aligned fixed-duration slots inside the
free intervals, in gap order. -/
def generate_candidate_slots (free_intervals : List Interval)
    (duration interval_minutes : Int) : List Interval :=
  free_intervals.flatMap fun g =>
    slotsFrom duration interval_minutes g.2 (firstStart g.1 interval_minutes)

/-- `get_day_minutes`: minutes from start of day. -/
def get_day_minutes (minutes_from_ref : Int) : Int :=
  Int.emod minutes_from_ref 1440

/-- `_slot_to_day_info` in week-relative mode:
`(start_day_minutes, end_day_minutes, day_of_week)` with a Monday-origin
reference week. -/
def _slot_to_day_info (slot : Interval) : Int × Int × Int :=
  (get_day_minutes slot.1, get_day_minutes slot.2, Int.emod (Int.fdiv slot.1 1440) 7)

/-- Start-of-day minute of a slot. -/
def sdmOf (slot : Interval) : Int := (_slot_to_day_info slot).1

/-- End-of-day minute of a slot. -/
def edmOf (slot : Interval) : Int := (_slot_to_day_info slot).2.1

/-- Day of week of a slot (0 = Monday). -/
def dowOf (slot : Interval) : Int := (_slot_to_day_info slot).2.2

/-- Start hour of a slot (Python `hour = start_day_min // 60`). -/
def hourOf (slot : Interval) : Int := Int.fdiv (sdmOf slot) 60

/-- `is_within_work_hours`. -/
def is_within_work_hours (slot : Interval) (settings : OrgSettings) : Bool :=
  if edmOf slot < sdmOf slot then false
  else
    decide (settings.work_hours_start ≤ sdmOf slot) &&
      decide (edmOf slot ≤ settings.work_hours_end)

/-- `overlaps_lunch`. -/
def overlaps_lunch (slot : Interval) (settings : OrgSettings) : Bool :=
  !(decide (edmOf slot ≤ settings.lunch_start) ||
      decide (settings.lunch_end ≤ sdmOf slot))

/-- `is_early_or_late`. -/
def is_early_or_late (slot : Interval) (settings : OrgSettings) : Bool × Bool :=
  (decide (sdmOf slot < settings.work_hours_start + 60),
    decide (settings.work_hours_end - 60 < edmOf slot))

/-- Condition of scoring check 4: `10 <= hour < 11 or 14 <= hour < 15`. -/
def optimal_time_cond (hour : Int) : Bool :=
  decide ((10 ≤ hour ∧ hour < 11) ∨ (14 ≤ hour ∧ hour < 15))

/-- Check 5 fires a reason on weekends, Mondays and Fridays. -/
def day_of_week_cond (dow : Int) : Bool :=
  decide (5 ≤ dow ∨ dow = 0 ∨ dow = 4)

/-- Check 6 fires a reason for in-person slots at midday or before 9, and for
every virtual slot. -/
def location_cond (hour : Int) (location_type : String) : Bool :=
  if location_type = "in-person" then
    decide ((10 ≤ hour ∧ hour < 15) ∨ hour < 9)
  else
    decide (location_type = "virtual")

/-- Condition of the morning-buffer check. -/
def morning_buffer_cond (sdm : Int) (settings : OrgSettings) : Bool :=
  decide (sdm = settings.work_hours_start)

/-- Condition of the evening-buffer check. -/
def evening_buffer_cond (edm : Int) (settings : OrgSettings) : Bool :=
  decide (edm = settings.work_hours_end)

/-- `len(set(p.timezone for p in people))`. -/
def unique_timezones (people : List Person) : Nat :=
  ((people.map Person.timezone).dedup).length

/-- Condition of the multi-timezone check. -/
def timezones_cond (people : List Person) : Bool :=
  decide (1 < unique_timezones people)

/-- The accumulator of `score_slot`: running score and reasons. -/
abbrev Acc := ℚ × List String

/-- One dict-backed score adjustment of the scorer: a subscript access
`d[k]` (raising `KeyError(k)` when absent), a score update, and a reason
append, as in `score -= penalties[k]; reasons.append(reason)`. -/
def apply_adjustment (d : List (String × ℚ)) (k : String) (f : ℚ → ℚ)
    (reason : String) (acc : Acc) : Except String Acc := do
  let v ← getKey d k
  Except.ok (f v, acc.2 ++ [reason])

/-- Scoring check 1 (work hours). -/
def check_work_hours (slot : Interval) (settings : OrgSettings) (acc : Acc) :
    Except String Acc :=
  if !is_within_work_hours slot settings then
    apply_adjustment settings.penalties "outside_work_hours" (fun p => acc.1 - p)
      "Outside work hours" acc
  else Except.ok acc

/-- Scoring check 2 (lunch overlap). -/
def check_lunch (slot : Interval) (settings : OrgSettings) (acc : Acc) :
    Except String Acc :=
  if overlaps_lunch slot settings then
    apply_adjustment settings.penalties "overlaps_lunch" (fun p => acc.1 - p)
      "Overlaps lunch" acc
  else Except.ok acc

/-- Scoring check 3, first half (early morning). -/
def check_early (slot : Interval) (settings : OrgSettings) (acc : Acc) :
    Except String Acc :=
  if (is_early_or_late slot settings).1 then
    apply_adjustment settings.penalties "early_morning" (fun p => acc.1 - p)
      "Early morning" acc
  else Except.ok acc

/-- Scoring check 3, second half (late evening). -/
def check_late (slot : Interval) (settings : OrgSettings) (acc : Acc) :
    Except String Acc :=
  if (is_early_or_late slot settings).2 then
    apply_adjustment settings.penalties "late_evening" (fun p => acc.1 - p)
      "Late evening" acc
  else Except.ok acc

/-- Scoring check 4 (optimal time of day). -/
def check_optimal_time (hour : Int) (settings : OrgSettings) (acc : Acc) :
    Except String Acc :=
  if optimal_time_cond hour then
    apply_adjustment settings.bonuses "optimal_time_slot" (fun b => acc.1 + b)
      "Optimal time of day" acc
  else Except.ok acc

/-- Scoring check 5 (day of week: weekend / Monday / Friday). -/
def check_day_of_week (dow : Int) (settings : OrgSettings) (acc : Acc) :
    Except String Acc :=
  if 5 ≤ dow then
    apply_adjustment settings.penalties "weekend" (fun p => acc.1 - p)
      "Weekend" acc
  else if dow = 0 then
    apply_adjustment settings.bonuses "monday_morning" (fun b => acc.1 + b)
      "Monday (fresh start)" acc
  else if dow = 4 then
    apply_adjustment settings.penalties "friday_afternoon" (fun p => acc.1 - p)
      "Friday (end of week)" acc
  else Except.ok acc

/-- Scoring check 6 (location type; the in-person branch has two inner
checks, the second applying a flat `-10` with no dict access). -/
def check_location (hour : Int) (location_type : String) (settings : OrgSettings)
    (acc : Acc) : Except String Acc :=
  if location_type = "in-person" then do
    let acc2 ←
      if 10 ≤ hour ∧ hour < 15 then
        apply_adjustment settings.bonuses "in_person_midday" (fun b => acc.1 + b)
          "Good time for in-person" acc
      else Except.ok acc
    if hour < 9 then
      Except.ok (acc2.1 - 10, acc2.2 ++ ["Too early for in-person"])
    else Except.ok acc2
  else if location_type = "virtual" then
    apply_adjustment settings.bonuses "virtual_meeting" (fun b => acc.1 + b)
      "Virtual (flexible)" acc
  else Except.ok acc

/-- Scoring check 7, first half (morning buffer). -/
def check_morning_buffer (sdm : Int) (settings : OrgSettings) (acc : Acc) :
    Except String Acc :=
  if morning_buffer_cond sdm settings then
    apply_adjustment settings.penalties "no_morning_buffer" (fun p => acc.1 - p)
      "No morning buffer" acc
  else Except.ok acc

/-- Scoring check 7, second half (evening buffer). -/
def check_evening_buffer (edm : Int) (settings : OrgSettings) (acc : Acc) :
    Except String Acc :=
  if evening_buffer_cond edm settings then
    apply_adjustment settings.penalties "no_evening_buffer" (fun p => acc.1 - p)
      "Runs to end of day" acc
  else Except.ok acc

/-- Scoring check 8 (multiple timezones). -/
def check_timezones (people : List Person) (settings : OrgSettings) (acc : Acc) :
    Except String Acc :=
  let n := unique_timezones people
  if timezones_cond people then
    apply_adjustment settings.penalties "per_additional_timezone"
      (fun p => acc.1 - ((n : ℚ) - 1) * p) (toString n ++ " timezones") acc
  else Except.ok acc

/-- `score_slot` in week-relative mode: baseline 100, the ordered sequence of
checks of the source, then the "Perfect slot" default and the floor at 0.
A `KeyError` inside a fired check surfaces as `Except.error key`. -/
def score_slot (slot : Interval) (settings : OrgSettings) (location_type : String)
    (people : List Person) : Except String ScoredSlot := do
  let acc ← check_work_hours slot settings (100, [])
  let acc ← check_lunch slot settings acc
  let acc ← check_early slot settings acc
  let acc ← check_late slot settings acc
  let acc ← check_optimal_time (hourOf slot) settings acc
  let acc ← check_day_of_week (dowOf slot) settings acc
  let acc ← check_location (hourOf slot) location_type settings acc
  let acc ← check_morning_buffer (sdmOf slot) settings acc
  let acc ← check_evening_buffer (edmOf slot) settings acc
  let acc ← check_timezones people settings acc
  pure (ScoredSlot.mk slot.1 slot.2 (max 0 acc.1)
    (if acc.2 = [] then ["Perfect slot"] else acc.2))

/-- "No check fired" for a slot: every condition of the nine checks of
`score_slot` is false. -/
def noCheckFired (slot : Interval) (settings : OrgSettings) (location_type : String)
    (people : List Person) : Prop :=
  is_within_work_hours slot settings = true ∧
  overlaps_lunch slot settings = false ∧
  (is_early_or_late slot settings).1 = false ∧
  (is_early_or_late slot settings).2 = false ∧
  optimal_time_cond (hourOf slot) = false ∧
  day_of_week_cond (dowOf slot) = false ∧
  location_cond (hourOf slot) location_type = false ∧
  morning_buffer_cond (sdmOf slot) settings = false ∧
  evening_buffer_cond (edmOf slot) settings = false ∧
  timezones_cond people = false

/-- The penalty keys the scoring rules reference. -/
def referenced_penalty_keys : List String :=
  ["outside_work_hours", "overlaps_lunch", "early_morning", "late_evening",
    "weekend", "friday_afternoon", "no_morning_buffer", "no_evening_buffer",
    "per_additional_timezone"]

/-- The bonus keys the scoring rules reference. -/
def referenced_bonus_keys : List String :=
  ["optimal_time_slot", "monday_morning", "virtual_meeting", "in_person_midday"]

/-- Every referenced penalty/bonus key is present in the settings. -/
def allKeysPresent (settings : OrgSettings) : Prop :=
  (∀ k ∈ referenced_penalty_keys, (settings.penalties.lookup k).isSome = true) ∧
  (∀ k ∈ referenced_bonus_keys, (settings.bonuses.lookup k).isSome = true)

/-- The list comprehension `[score_slot(slot, ...) for slot in candidates]`:
scores slots in order, propagating the first `KeyError`. -/
def score_all (settings : OrgSettings) (location_type : String)
    (people : List Person) : List Interval → Except String (List ScoredSlot)
  | [] => Except.ok []
  | slot :: rest => do
      let ss ← score_slot slot settings location_type people
      let others ← score_all settings location_type people rest
      Except.ok (ss :: others)

/-- The descending-score order used by
`scored_slots.sort(key=lambda x: x.score, reverse=True)`. -/
def scoreGe (a b : ScoredSlot) : Prop := b.score ≤ a.score

instance : DecidableRel scoreGe := fun a b => by
  unfold scoreGe; infer_instance

instance : IsTotal ScoredSlot scoreGe :=
  ⟨fun a b => (le_total b.score a.score).imp id id⟩

instance : IsTrans ScoredSlot scoreGe :=
  ⟨fun _ _ _ hab hbc => le_trans hbc hab⟩

/-- The Top-K Selector: Python's stable descending sort by score followed by
`[:top_k]`. -/
def select_top_k (scored_slots : List ScoredSlot) (top_k : Nat) : List ScoredSlot :=
  (List.insertionSort scoreGe scored_slots).take top_k

/-- `find_optimal_slots` (week-relative mode; `top_k` is a count, so `Nat`). -/
def find_optimal_slots (people : List Person) (window_start window_end duration : Int)
    (location_type : String) (settings : OrgSettings) (top_k : Nat) :
    Except String (List ScoredSlot) :=
  let busy_intervals := get_all_busy_intervals people window_start window_end
  let free_intervals := busy_to_free busy_intervals window_start window_end
  if free_intervals = [] then Except.ok []
  else
    let candidates :=
      generate_candidate_slots free_intervals duration settings.interval_minutes
    if candidates = [] then Except.ok []
    else do
      let scored_slots ← score_all settings location_type people candidates
      Except.ok (select_top_k scored_slots top_k)

/-- `create_meeting_with_dates`, with the I/O boundary abstracted: the window
boundary datetimes are given as integer minute timestamps (their comparison
and the window length `(end - start).total_seconds() // 60` are
order/difference-preserving under that abstraction), the org-settings file is
given as an `OrgSettings` value, and the Google-event normalization
(`build_people_from_google_events`) is given as an already-built `Person`
list.  The function validates only the window order; it performs no check on
`duration`. -/
def create_meeting_with_dates (window_start_ts window_end_ts : Int)
    (people : List Person) (duration : Int) (location_type : String)
    (settings : OrgSettings) (top_k : Nat) : Except String (List ScoredSlot) :=
  if window_end_ts ≤ window_start_ts then
    Except.error "window_end_dt must be after window_start_dt"
  else if people = [] then Except.ok []
  else
    find_optimal_slots people 0 (window_end_ts - window_start_ts) duration
      location_type settings top_k

/-- Membership of a minute in a half-open interval. -/
def inIv (iv : Interval) (x : Int) : Prop := iv.1 ≤ x ∧ x < iv.2

/-- A minute is covered by some interval of the list. -/
def covers (l : List Interval) (x : Int) : Prop := ∃ iv ∈ l, inIv iv x

/-- Output intervals of the merger are separated: earlier ends strictly
before later starts (no overlap and no touching). -/
def sep (a b : Interval) : Prop := a.2 < b.1

/-- Comparison by start only (weakening of the sort order). -/
def startLe (a b : Interval) : Prop := a.1 ≤ b.1

instance : DecidableRel sep := fun a b => by
  unfold sep; infer_instance

instance : DecidableRel startLe := fun a b => by
  unfold startLe; infer_instance

deriving instance DecidableEq for Except

/-! ## Concrete fixtures used in witnesses and counterexamples -/

/-- Default preferences, as built by the source's loaders. -/
def prefs0 : PersonPreferences := ⟨["morning"], true, 15⟩

/-- A participant with no events. -/
def person0 : Person := ⟨"p1", "Alice", "a@example.test", [], "America/New_York", prefs0⟩

/-- An event covering `[0, 30)`. -/
def eventB : Event := { start := 0, stop := 30, timezone := "UTC" }

/-- A participant with one event. -/
def personB : Person := ⟨"p2", "Bob", "b@example.test", [eventB], "UTC", prefs0⟩

/-- Settings with 9:00-17:00 work hours, 12:00-13:00 lunch, every referenced
penalty present with value 0, and the Scenario C bonuses. -/
def settingsFull : OrgSettings :=
  { work_hours_start := 540, work_hours_end := 1020,
    lunch_start := 720, lunch_end := 780,
    penalties := [("outside_work_hours", 0), ("overlaps_lunch", 0),
      ("early_morning", 0), ("late_evening", 0), ("weekend", 0),
      ("friday_afternoon", 0), ("no_morning_buffer", 0),
      ("no_evening_buffer", 0), ("per_additional_timezone", 0)],
    bonuses := [("optimal_time_slot", 10), ("monday_morning", 5),
      ("virtual_meeting", 5), ("in_person_midday", 8)],
    interval_minutes := 15 }

/-- Settings with an empty penalties dict (every referenced penalty key, and
the `in_person_midday` bonus key, absent). -/
def settingsNoKeys : OrgSettings :=
  { work_hours_start := 540, work_hours_end := 1020,
    lunch_start := 720, lunch_end := 780,
    penalties := [],
    bonuses := [("optimal_time_slot", 10), ("monday_morning", 5),
      ("virtual_meeting", 5)],
    interval_minutes := 15 }

/-! ## Lemmas about the interval merger -/

theorem covers_nil (x : Int) : ¬ covers [] x := by
  simp [covers]

theorem covers_cons {iv : Interval} {l : List Interval} {x : Int} :
    covers (iv :: l) x ↔ inIv iv x ∨ covers l x := by
  simp [covers]

theorem covers_append {l l' : List Interval} {x : Int} :
    covers (l ++ l') x ↔ covers l x ∨ covers l' x := by
  simp [covers, or_and_right, exists_or]

theorem covers_of_perm {l l' : List Interval} (h : l.Perm l') (x : Int) :
    covers l x ↔ covers l' x := by
  unfold covers
  constructor
  · rintro ⟨iv, hm, hi⟩
    exact ⟨iv, h.mem_iff.mp hm, hi⟩
  · rintro ⟨iv, hm, hi⟩
    exact ⟨iv, h.mem_iff.mpr hm, hi⟩

theorem mergeLoop_start_le (rest : List Interval) (cur : Interval)
    (hp : List.Pairwise startLe (cur :: rest)) :
    ∀ b ∈ mergeLoop cur rest, cur.1 ≤ b.1 := by
  induction rest generalizing cur with
  | nil =>
    intro b hb
    simp only [mergeLoop, List.mem_singleton] at hb
    simp [hb]
  | cons iv rest ih =>
    obtain ⟨s, e⟩ := iv
    obtain ⟨hcur, hrest⟩ := List.pairwise_cons.mp hp
    obtain ⟨hs, hrest'⟩ := List.pairwise_cons.mp hrest
    have hcs : cur.1 ≤ s := hcur (s, e) (List.mem_cons_self _ _)
    intro b hb
    simp only [mergeLoop] at hb
    by_cases hse : s ≤ cur.2
    · rw [if_pos hse] at hb
      have hp' : List.Pairwise startLe ((cur.1, max cur.2 e) :: rest) := by
        refine List.pairwise_cons.mpr ⟨fun iv h' => ?_, hrest'⟩
        exact hcur iv (List.mem_cons_of_mem _ h')
      exact ih (cur.1, max cur.2 e) hp' b hb
    · rw [if_neg hse] at hb
      rcases List.mem_cons.mp hb with hb | hb
      · simp [hb]
      · exact le_trans hcs (ih (s, e) hrest b hb)

theorem mergeLoop_sep_wf (rest : List Interval) (cur : Interval)
    (hp : List.Pairwise startLe (cur :: rest))
    (hwf : ∀ iv ∈ cur :: rest, iv.1 < iv.2) :
    List.Pairwise sep (mergeLoop cur rest) ∧
      ∀ iv ∈ mergeLoop cur rest, iv.1 < iv.2 := by
  induction rest generalizing cur with
  | nil =>
    refine ⟨List.pairwise_singleton _ _, fun iv hm => ?_⟩
    simp only [mergeLoop, List.mem_singleton] at hm
    subst hm
    exact hwf _ (List.mem_cons_self _ _)
  | cons iv rest ih =>
    obtain ⟨s, e⟩ := iv
    obtain ⟨hcur, hrest⟩ := List.pairwise_cons.mp hp
    have hcs : cur.1 ≤ s := hcur (s, e) (List.mem_cons_self _ _)
    simp only [mergeLoop]
    by_cases hse : s ≤ cur.2
    · rw [if_pos hse]
      have hp' : List.Pairwise startLe ((cur.1, max cur.2 e) :: rest) := by
        refine List.pairwise_cons.mpr
          ⟨fun iv h' => hcur iv (List.mem_cons_of_mem _ h'),
            (List.pairwise_cons.mp hrest).2⟩
      refine ih (cur.1, max cur.2 e) hp' fun iv hm => ?_
      rcases List.mem_cons.mp hm with hm | hm
      · subst hm
        have : cur.1 < cur.2 := hwf cur (List.mem_cons_self _ _)
        simp only []
        exact lt_of_lt_of_le this (le_max_left _ _)
      · exact hwf iv (List.mem_cons_of_mem _ (List.mem_cons_of_mem _ hm))
    · rw [if_neg hse]
      have hwf' : ∀ iv ∈ (s, e) :: rest, iv.1 < iv.2 :=
        fun iv hm => hwf iv (List.mem_cons_of_mem _ hm)
      obtain ⟨ihsep, ihwf⟩ := ih (s, e) hrest hwf'
      refine ⟨List.pairwise_cons.mpr ⟨fun b hb => ?_, ihsep⟩, fun iv hm => ?_⟩
      · have hsb : s ≤ b.1 := mergeLoop_start_le rest (s, e) hrest b hb
        have : cur.2 < s := lt_of_not_ge hse
        exact lt_of_lt_of_le this hsb
      · rcases List.mem_cons.mp hm with hm | hm
        · subst hm; exact hwf _ (List.mem_cons_self _ _)
        · exact ihwf iv hm

theorem mergeLoop_covers (rest : List Interval) (cur : Interval)
    (hp : List.Pairwise startLe (cur :: rest)) (x : Int) :
    covers (mergeLoop cur rest) x ↔ inIv cur x ∨ covers rest x := by
  induction rest generalizing cur with
  | nil =>
    simp [mergeLoop, covers]
  | cons iv rest ih =>
    obtain ⟨s, e⟩ := iv
    obtain ⟨hcur, hrest⟩ := List.pairwise_cons.mp hp
    have hcs : cur.1 ≤ s := hcur (s, e) (List.mem_cons_self _ _)
    simp only [mergeLoop]
    by_cases hse : s ≤ cur.2
    · rw [if_pos hse]
      have hp' : List.Pairwise startLe ((cur.1, max cur.2 e) :: rest) :=
        List.pairwise_cons.mpr
          ⟨fun iv h' => hcur iv (List.mem_cons_of_mem _ h'),
            (List.pairwise_cons.mp hrest).2⟩
      rw [ih (cur.1, max cur.2 e) hp']
      rw [covers_cons]
      have hiv : inIv (cur.1, max cur.2 e) x ↔ inIv cur x ∨ inIv (s, e) x := by
        unfold inIv
        simp only []
        omega
      rw [hiv]
      tauto
    · rw [if_neg hse]
      rw [covers_cons, ih (s, e) hrest, covers_cons]

theorem mergeLoop_bounds (rest : List Interval) (cur : Interval) (L U : Int)
    (h : ∀ iv ∈ cur :: rest, L ≤ iv.1 ∧ iv.2 ≤ U) :
    ∀ iv ∈ mergeLoop cur rest, L ≤ iv.1 ∧ iv.2 ≤ U := by
  induction rest generalizing cur with
  | nil =>
    intro iv hm
    simp only [mergeLoop, List.mem_singleton] at hm
    subst hm
    exact h _ (List.mem_cons_self _ _)
  | cons jv rest ih =>
    obtain ⟨s, e⟩ := jv
    intro iv hm
    simp only [mergeLoop] at hm
    by_cases hse : s ≤ cur.2
    · rw [if_pos hse] at hm
      refine ih (cur.1, max cur.2 e) ?_ iv hm
      intro kv hk
      rcases List.mem_cons.mp hk with hk | hk
      · subst hk
        constructor
        · exact (h cur (List.mem_cons_self _ _)).1
        · simp only []
          exact max_le (h cur (List.mem_cons_self _ _)).2
            (h (s, e) (List.mem_cons_of_mem _ (List.mem_cons_self _ _))).2
      · exact h kv (List.mem_cons_of_mem _ (List.mem_cons_of_mem _ hk))
    · rw [if_neg hse] at hm
      rcases List.mem_cons.mp hm with hm | hm
      · subst hm; exact h _ (List.mem_cons_self _ _)
      · exact ih (s, e) (fun kv hk => h kv (List.mem_cons_of_mem _ hk)) iv hm

theorem sorted_pairwise_startLe (l : List Interval) :
    List.Pairwise startLe (List.insertionSort ivLe l) := by
  have hs : List.Sorted ivLe (List.insertionSort ivLe l) :=
    List.sorted_insertionSort ivLe l
  exact hs.imp fun {a b} hab => by
    unfold ivLe at hab
    unfold startLe
    omega

theorem merge_intervals_spec (l : List Interval) (hwf : ∀ iv ∈ l, iv.1 < iv.2) :
    List.Pairwise sep (merge_intervals l) ∧
      (∀ iv ∈ merge_intervals l, iv.1 < iv.2) ∧
      ∀ x : Int, covers (merge_intervals l) x ↔ covers l x := by
  have hperm : (List.insertionSort ivLe l).Perm l := List.perm_insertionSort ivLe l
  have hp := sorted_pairwise_startLe l
  have hwf' : ∀ iv ∈ List.insertionSort ivLe l, iv.1 < iv.2 :=
    fun iv hm => hwf iv (hperm.mem_iff.mp hm)
  unfold merge_intervals
  cases hsort : List.insertionSort ivLe l with
  | nil =>
    have hl : l = [] := by
      have := hsort ▸ hperm
      exact this.symm.eq_nil
    subst hl
    simp [covers]
  | cons first rest =>
    rw [hsort] at hperm hp hwf'
    obtain ⟨h1, h2⟩ := mergeLoop_sep_wf rest first hp hwf'
    refine ⟨h1, h2, fun x => ?_⟩
    rw [mergeLoop_covers rest first hp x, ← covers_cons]
    exact covers_of_perm hperm x

theorem merge_intervals_bounds (l : List Interval) (L U : Int)
    (h : ∀ iv ∈ l, L ≤ iv.1 ∧ iv.2 ≤ U) :
    ∀ iv ∈ merge_intervals l, L ≤ iv.1 ∧ iv.2 ≤ U := by
  have hperm : (List.insertionSort ivLe l).Perm l := List.perm_insertionSort ivLe l
  unfold merge_intervals
  cases hsort : List.insertionSort ivLe l with
  | nil => simp
  | cons first rest =>
    rw [hsort] at hperm
    exact mergeLoop_bounds rest first L U
      (fun iv hm => h iv (hperm.mem_iff.mp hm))

/-! ## Lemmas about the free-gap computer -/

theorem btfLoop_spec (busy : List Interval) (w_end cur : Int)
    (hp : List.Pairwise sep busy)
    (hin : ∀ iv ∈ busy, cur ≤ iv.1 ∧ iv.1 < iv.2 ∧ iv.2 ≤ w_end) :
    List.Pairwise sep (btfLoop w_end cur busy) ∧
      (∀ iv ∈ btfLoop w_end cur busy, cur ≤ iv.1 ∧ iv.1 < iv.2 ∧ iv.2 ≤ w_end) ∧
      ∀ x : Int, cur ≤ x → x < w_end →
        (covers (btfLoop w_end cur busy) x ↔ ¬ covers busy x) := by
  induction busy generalizing cur with
  | nil =>
    simp only [btfLoop]
    by_cases hcw : cur < w_end
    · rw [if_pos hcw]
      refine ⟨List.pairwise_singleton _ _, ?_, ?_⟩
      · intro iv hm
        simp only [List.mem_singleton] at hm
        subst hm
        exact ⟨le_refl _, hcw, le_refl _⟩
      · intro x hx hxw
        rw [covers_cons]
        constructor
        · intro _
          exact covers_nil x
        · intro _
          exact Or.inl (show cur ≤ x ∧ x < w_end from ⟨hx, hxw⟩)
    · rw [if_neg hcw]
      refine ⟨List.Pairwise.nil, by simp, ?_⟩
      intro x hx hxw
      exact absurd (lt_of_le_of_lt hx hxw) hcw
  | cons iv busy ih =>
    obtain ⟨s, e⟩ := iv
    obtain ⟨hhead, htail⟩ := List.pairwise_cons.mp hp
    obtain ⟨hcs, hse, hew⟩ := hin (s, e) (List.mem_cons_self _ _)
    simp only [btfLoop]
    by_cases hwe : w_end ≤ e
    · rw [if_pos hwe]
      by_cases hcls : cur < s
      · rw [if_pos hcls]
        refine ⟨List.pairwise_singleton _ _, ?_, ?_⟩
        · intro iv hm
          simp only [List.mem_singleton] at hm
          subst hm
          exact ⟨le_refl _, hcls, le_trans (le_of_lt hse) hew⟩
        · intro x hx hxw
          simp only [covers_cons, covers_nil, inIv, or_false]
          constructor
          · rintro ⟨-, hxs⟩
            rintro (⟨hj1, hj2⟩ | ⟨jv, hjm, hj1, hj2⟩)
            · omega
            · have h5 : e < jv.1 := hhead jv hjm
              omega
          · intro hnc
            refine ⟨hx, ?_⟩
            by_contra hxs
            push_neg at hxs
            exact hnc (Or.inl ⟨hxs, lt_of_lt_of_le hxw hwe⟩)
      · rw [if_neg hcls]
        refine ⟨List.Pairwise.nil, by simp, ?_⟩
        intro x hx hxw
        simp only [covers_nil, false_iff, not_not, covers_cons, inIv]
        exact Or.inl ⟨by omega, lt_of_lt_of_le hxw hwe⟩
    · rw [if_neg hwe]
      push_neg at hwe
      have hin2 : ∀ iv ∈ busy, e ≤ iv.1 ∧ iv.1 < iv.2 ∧ iv.2 ≤ w_end := by
        intro jv hjm
        obtain ⟨-, h2, h3⟩ := hin jv (List.mem_cons_of_mem _ hjm)
        exact ⟨le_of_lt (hhead jv hjm), h2, h3⟩
      obtain ⟨ihsep, ihbounds, ihcov⟩ := ih e htail hin2
      by_cases hcls : cur < s
      · rw [if_pos hcls]
        simp only [List.singleton_append]
        refine ⟨?_, ?_, ?_⟩
        · refine List.pairwise_cons.mpr ⟨fun b hb => ?_, ihsep⟩
          have h5 : e ≤ b.1 := (ihbounds b hb).1
          show s < b.1
          omega
        · intro jv hjm
          rcases List.mem_cons.mp hjm with hjm | hjm
          · subst hjm
            exact ⟨le_refl _, hcls, show s ≤ w_end by omega⟩
          · have := ihbounds jv hjm
            omega
        · intro x hx hxw
          rw [covers_cons, covers_cons]
          simp only [inIv]
          by_cases hxe : e ≤ x
          · rw [ihcov x hxe hxw]
            have h1 : ¬ (cur ≤ x ∧ x < s) := by omega
            have h2 : ¬ (s ≤ x ∧ x < e) := by omega
            tauto
          · push_neg at hxe
            have hrec : ¬ covers (btfLoop w_end e busy) x := by
              rintro ⟨jv, hjm, hj1, hj2⟩
              have := (ihbounds jv hjm).1
              omega
            have hrest : ¬ covers busy x := by
              rintro ⟨jv, hjm, hj1, hj2⟩
              have := (hin2 jv hjm).1
              omega
            simp only [hrec, or_false, hrest]
            omega
      · rw [if_neg hcls]
        push_neg at hcls
        simp only [List.nil_append]
        refine ⟨ihsep, ?_, ?_⟩
        · intro jv hjm
          have := ihbounds jv hjm
          omega
        · intro x hx hxw
          rw [covers_cons]
          by_cases hxe : e ≤ x
          · rw [ihcov x hxe hxw]
            have h2 : ¬ inIv (s, e) x := by
              show ¬ (s ≤ x ∧ x < e)
              omega
            tauto
          · push_neg at hxe
            have hrec : ¬ covers (btfLoop w_end e busy) x := by
              rintro ⟨jv, hjm, hj1, hj2⟩
              have := (ihbounds jv hjm).1
              omega
            have hrest : ¬ covers busy x := by
              rintro ⟨jv, hjm, hj1, hj2⟩
              have := (hin2 jv hjm).1
              omega
            have hsx : inIv (s, e) x := by
              show s ≤ x ∧ x < e
              omega
            simp [hrec, hrest, hsx]

/-! ## Lemmas about the candidate generator -/

theorem firstStart_emod (a i : Int) : firstStart a i % i = 0 := by
  unfold firstStart
  rw [Int.mul_comm]
  exact Int.mul_emod_right i _

theorem le_firstStart (a i : Int) (hi : 0 < i) : a ≤ firstStart a i := by
  unfold firstStart
  rw [Int.fdiv_eq_ediv _ (le_of_lt hi)]
  have h := Int.lt_ediv_add_one_mul_self (a + i - 1) hi
  have h2 : ((a + i - 1) / i + 1) * i = (a + i - 1) / i * i + i := by ring
  linarith

theorem firstStart_min (a i m : Int) (hi : 0 < i)
    (hm : m % i = 0) (ham : a ≤ m) : firstStart a i ≤ m := by
  unfold firstStart
  rw [Int.fdiv_eq_ediv _ (le_of_lt hi)]
  obtain ⟨k, hk⟩ := Int.dvd_of_emod_eq_zero hm
  have h1 : (a + i - 1) / i ≤ (m + i - 1) / i := Int.ediv_le_ediv hi (by omega)
  have h2 : (m + i - 1) / i = k := by
    have h3 : m + i - 1 = (i - 1) + k * i := by rw [hk]; ring
    rw [h3, Int.add_mul_ediv_right _ _ (ne_of_gt hi),
      Int.ediv_eq_zero_of_lt (by omega) (by omega), zero_add]
  rw [h2] at h1
  have h4 : (a + i - 1) / i * i ≤ k * i :=
    mul_le_mul_of_nonneg_right h1 (le_of_lt hi)
  have h5 : k * i = m := by rw [hk]; ring
  linarith

theorem slotsFromGo_mem (d i fe : Int) (fuel : Nat) (c : Int) :
    ∀ x ∈ slotsFromGo d i fe fuel c,
      x.2 = x.1 + d ∧ c ≤ x.1 ∧ x.1 + d ≤ fe ∧ (x.1 - c) % i = 0 := by
  induction fuel generalizing c with
  | zero =>
    intro x hx
    simp [slotsFromGo] at hx
  | succ fuel ih =>
    intro x hx
    rw [slotsFromGo] at hx
    by_cases h : 0 < i ∧ c + d ≤ fe
    · rw [if_pos h] at hx
      rcases List.mem_cons.mp hx with hx | hx
      · subst hx
        refine ⟨rfl, le_refl _, h.2, ?_⟩
        have h7 : ((c, c + d) : Interval).1 - c = 0 := by ring
        rw [h7]
        simp
      · obtain ⟨h1, h2, h3, h4⟩ := ih (c + i) x hx
        refine ⟨h1, by omega, h3, ?_⟩
        have h6 : x.1 - c = (x.1 - (c + i)) + 1 * i := by ring
        rw [h6, Int.add_mul_emod_self]
        exact h4
    · rw [if_neg h] at hx
      simp at hx

theorem slotsFrom_mem (d i fe : Int) (c : Int) :
    ∀ x ∈ slotsFrom d i fe c,
      x.2 = x.1 + d ∧ c ≤ x.1 ∧ x.1 + d ≤ fe ∧ (x.1 - c) % i = 0 :=
  slotsFromGo_mem d i fe _ c

theorem slotsFromGo_pairwise (d i fe : Int) (fuel : Nat) (c : Int) :
    List.Pairwise (fun a b : Interval => a.1 < b.1) (slotsFromGo d i fe fuel c) := by
  induction fuel generalizing c with
  | zero =>
    rw [slotsFromGo]
    exact List.Pairwise.nil
  | succ fuel ih =>
    rw [slotsFromGo]
    by_cases h : 0 < i ∧ c + d ≤ fe
    · rw [if_pos h]
      refine List.pairwise_cons.mpr ⟨?_, ih (c + i)⟩
      intro b hb
      have h2 := (slotsFromGo_mem d i fe fuel (c + i) b hb).2.1
      show c < b.1
      omega
    · rw [if_neg h]
      exact List.Pairwise.nil

theorem slotsFrom_pairwise (d i fe c : Int) :
    List.Pairwise (fun a b : Interval => a.1 < b.1) (slotsFrom d i fe c) :=
  slotsFromGo_pairwise d i fe _ c

theorem slotsFrom_head (d i fe c : Int) (x : Interval) (rest : List Interval)
    (h : slotsFrom d i fe c = x :: rest) : x.1 = c := by
  unfold slotsFrom at h
  cases hf : (fe - d - c + 1).toNat with
  | zero =>
    rw [hf] at h
    simp [slotsFromGo] at h
  | succ fuel =>
    rw [hf, slotsFromGo] at h
    by_cases hc : 0 < i ∧ c + d ≤ fe
    · rw [if_pos hc] at h
      injection h with h1 h2
      rw [← h1]
    · rw [if_neg hc] at h
      simp at h

theorem generate_candidate_slots_mem (free : List Interval) (d i : Int)
    (hi : 0 < i) :
    ∀ slot ∈ generate_candidate_slots free d i,
      slot.2 - slot.1 = d ∧ slot.1 % i = 0 ∧
        ∃ g ∈ free, g.1 ≤ slot.1 ∧ slot.2 ≤ g.2 := by
  intro slot hm
  unfold generate_candidate_slots at hm
  rw [List.mem_flatMap] at hm
  obtain ⟨g, hg, hmem⟩ := hm
  obtain ⟨h1, h2, h3, h4⟩ := slotsFrom_mem d i g.2 (firstStart g.1 i) slot hmem
  have h5 := firstStart_emod g.1 i
  have h6 := le_firstStart g.1 i hi
  refine ⟨by omega, ?_, g, hg, by omega, by omega⟩
  have d1 : i ∣ slot.1 - firstStart g.1 i := Int.dvd_of_emod_eq_zero h4
  have d2 : i ∣ firstStart g.1 i := Int.dvd_of_emod_eq_zero h5
  have d3 : i ∣ slot.1 := by
    have := dvd_add d1 d2
    simpa using this
  exact Int.emod_eq_zero_of_dvd d3

theorem generate_candidate_slots_gap_order (free : List Interval) (d i : Int) :
    generate_candidate_slots free d i =
      free.flatMap fun g => generate_candidate_slots [g] d i := by
  unfold generate_candidate_slots
  simp

theorem generate_candidate_slots_single_sorted (g : Interval) (d i : Int) :
    List.Pairwise (fun a b : Interval => a.1 < b.1)
      (generate_candidate_slots [g] d i) := by
  unfold generate_candidate_slots
  simp only [List.flatMap_cons, List.flatMap_nil, List.append_nil]
  exact slotsFrom_pairwise d i g.2 _

theorem generate_candidate_slots_first (g : Interval) (d i : Int) (hi : 0 < i)
    (x : Interval) (rest : List Interval)
    (h : generate_candidate_slots [g] d i = x :: rest) :
    x.1 % i = 0 ∧ g.1 ≤ x.1 ∧
      ∀ m : Int, m % i = 0 → g.1 ≤ m → x.1 ≤ m := by
  unfold generate_candidate_slots at h
  simp only [List.flatMap_cons, List.flatMap_nil, List.append_nil] at h
  have hx1 : x.1 = firstStart g.1 i := slotsFrom_head d i g.2 _ x rest h
  rw [hx1]
  exact ⟨firstStart_emod g.1 i, le_firstStart g.1 i hi,
    fun m hm hgm => firstStart_min g.1 i m hi hm hgm⟩

/-! ## Lemmas about the scorer -/

theorem exceptOkBind {ε α β : Type} (a : α) (f : α → Except ε β) :
    (Except.ok a >>= f : Except ε β) = f a := rfl

theorem exceptErrBind {ε α β : Type} (e : ε) (f : α → Except ε β) :
    ((Except.error e : Except ε α) >>= f) = Except.error e := rfl

theorem getKey_some {d : List (String × ℚ)} {k : String} {v : ℚ}
    (hl : d.lookup k = some v) : getKey d k = Except.ok v := by
  unfold getKey
  rw [hl]

theorem getKey_none {d : List (String × ℚ)} {k : String}
    (hl : d.lookup k = none) : getKey d k = Except.error k := by
  unfold getKey
  rw [hl]

theorem apply_adjustment_ok {d : List (String × ℚ)} {k : String} {f : ℚ → ℚ}
    {r : String} {acc acc' : Acc}
    (h : apply_adjustment d k f r acc = Except.ok acc') :
    acc'.2 = acc.2 ++ [r] := by
  unfold apply_adjustment at h
  cases hl : d.lookup k with
  | none =>
    rw [getKey_none hl, exceptErrBind] at h
    exact absurd h (by simp)
  | some v =>
    rw [getKey_some hl, exceptOkBind] at h
    replace h : Except.ok (f v, acc.2 ++ [r]) = Except.ok acc' := h
    injection h with h
    rw [← h]

theorem apply_adjustment_isSome {d : List (String × ℚ)} {k : String} {f : ℚ → ℚ}
    {r : String} {acc : Acc} (hk : (d.lookup k).isSome = true) :
    ∃ acc', apply_adjustment d k f r acc = Except.ok acc' := by
  unfold apply_adjustment
  obtain ⟨v, hv⟩ := Option.isSome_iff_exists.mp hk
  rw [getKey_some hv, exceptOkBind]
  exact ⟨_, rfl⟩

/-- The multi-timezone reason string can never equal the default reason. -/
theorem timezones_ne_perfect (n : ℕ) :
    toString n ++ " timezones" ≠ "Perfect slot" := by
  intro h
  have hd := congrArg String.data h
  rw [String.data_append] at hd
  have h2 := congrArg List.getLast? hd
  rw [List.getLast?_append] at h2
  have e1 : (" timezones".data).getLast? = some 's' := rfl
  have e2 : ("Perfect slot".data).getLast? = some 't' := rfl
  rw [e1, e2] at h2
  replace h2 : (some 's' : Option Char) = some 't' := h2
  exact absurd h2 (by decide)

theorem ite_adjust_reasons {b : Bool} {d : List (String × ℚ)} {k : String}
    {f : ℚ → ℚ} {r : String} {acc acc' : Acc}
    (h : (if b then apply_adjustment d k f r acc else Except.ok acc) = Except.ok acc')
    (hr : ("Perfect slot" : String) ≠ r) :
    ∃ t, acc'.2 = acc.2 ++ t ∧ (t = [] ↔ b = false) ∧ "Perfect slot" ∉ t := by
  cases b
  · rw [if_neg (by simp)] at h
    injection h with h
    subst h
    exact ⟨[], (List.append_nil _).symm, by simp, by simp⟩
  · rw [if_pos (by simp)] at h
    exact ⟨[r], apply_adjustment_ok h, by simp, by simp [hr]⟩

theorem check_work_hours_reasons {slot : Interval} {settings : OrgSettings}
    {acc acc' : Acc} (h : check_work_hours slot settings acc = Except.ok acc') :
    ∃ t, acc'.2 = acc.2 ++ t ∧
      (t = [] ↔ is_within_work_hours slot settings = true) ∧
      "Perfect slot" ∉ t := by
  unfold check_work_hours at h
  obtain ⟨t, h1, h2, h3⟩ := ite_adjust_reasons h (by decide)
  refine ⟨t, h1, ?_, h3⟩
  rw [h2]
  simp

theorem check_lunch_reasons {slot : Interval} {settings : OrgSettings}
    {acc acc' : Acc} (h : check_lunch slot settings acc = Except.ok acc') :
    ∃ t, acc'.2 = acc.2 ++ t ∧
      (t = [] ↔ overlaps_lunch slot settings = false) ∧
      "Perfect slot" ∉ t := by
  unfold check_lunch at h
  exact ite_adjust_reasons h (by decide)

theorem check_early_reasons {slot : Interval} {settings : OrgSettings}
    {acc acc' : Acc} (h : check_early slot settings acc = Except.ok acc') :
    ∃ t, acc'.2 = acc.2 ++ t ∧
      (t = [] ↔ (is_early_or_late slot settings).1 = false) ∧
      "Perfect slot" ∉ t := by
  unfold check_early at h
  exact ite_adjust_reasons h (by decide)

theorem check_late_reasons {slot : Interval} {settings : OrgSettings}
    {acc acc' : Acc} (h : check_late slot settings acc = Except.ok acc') :
    ∃ t, acc'.2 = acc.2 ++ t ∧
      (t = [] ↔ (is_early_or_late slot settings).2 = false) ∧
      "Perfect slot" ∉ t := by
  unfold check_late at h
  exact ite_adjust_reasons h (by decide)

theorem check_optimal_time_reasons {hour : Int} {settings : OrgSettings}
    {acc acc' : Acc} (h : check_optimal_time hour settings acc = Except.ok acc') :
    ∃ t, acc'.2 = acc.2 ++ t ∧
      (t = [] ↔ optimal_time_cond hour = false) ∧
      "Perfect slot" ∉ t := by
  unfold check_optimal_time at h
  exact ite_adjust_reasons h (by decide)

theorem check_day_of_week_reasons {dow : Int} {settings : OrgSettings}
    {acc acc' : Acc} (h : check_day_of_week dow settings acc = Except.ok acc') :
    ∃ t, acc'.2 = acc.2 ++ t ∧
      (t = [] ↔ day_of_week_cond dow = false) ∧
      "Perfect slot" ∉ t := by
  unfold check_day_of_week at h
  by_cases h5 : 5 ≤ dow
  · rw [if_pos h5] at h
    refine ⟨["Weekend"], apply_adjustment_ok h, ?_, by simp⟩
    unfold day_of_week_cond
    simp [h5]
  · rw [if_neg h5] at h
    by_cases h0 : dow = 0
    · rw [if_pos h0] at h
      refine ⟨["Monday (fresh start)"], apply_adjustment_ok h, ?_, by simp⟩
      unfold day_of_week_cond
      simp [h0]
    · rw [if_neg h0] at h
      by_cases h4 : dow = 4
      · rw [if_pos h4] at h
        refine ⟨["Friday (end of week)"], apply_adjustment_ok h, ?_, by simp⟩
        unfold day_of_week_cond
        simp [h4]
      · rw [if_neg h4] at h
        injection h with h
        subst h
        refine ⟨[], (List.append_nil _).symm, ?_, by simp⟩
        unfold day_of_week_cond
        simp [h5, h0, h4]

theorem check_location_reasons {hour : Int} {location_type : String}
    {settings : OrgSettings} {acc acc' : Acc}
    (h : check_location hour location_type settings acc = Except.ok acc') :
    ∃ t, acc'.2 = acc.2 ++ t ∧
      (t = [] ↔ location_cond hour location_type = false) ∧
      "Perfect slot" ∉ t := by
  unfold check_location at h
  by_cases hip : location_type = "in-person"
  · rw [if_pos hip] at h
    by_cases hmid : 10 ≤ hour ∧ hour < 15
    · rw [if_pos hmid] at h
      cases e2 : apply_adjustment settings.bonuses "in_person_midday"
          (fun b => acc.1 + b) "Good time for in-person" acc with
      | error e =>
        rw [e2, exceptErrBind] at h
        exact absurd h (by simp)
      | ok acc2 =>
        simp only [e2, exceptOkBind] at h
        have h2 := apply_adjustment_ok e2
        by_cases h9 : hour < 9
        · rw [if_pos h9] at h
          injection h with h
          subst h
          refine ⟨["Good time for in-person", "Too early for in-person"], ?_, ?_, by simp⟩
          · rw [h2]
            simp
          · unfold location_cond
            rw [if_pos hip]
            simp [hmid]
        · rw [if_neg h9] at h
          injection h with h
          subst h
          refine ⟨["Good time for in-person"], h2, ?_, by simp⟩
          unfold location_cond
          rw [if_pos hip]
          simp [hmid]
    · rw [if_neg hmid] at h
      simp only [exceptOkBind] at h
      by_cases h9 : hour < 9
      · rw [if_pos h9] at h
        injection h with h
        subst h
        refine ⟨["Too early for in-person"], by simp, ?_, by simp⟩
        unfold location_cond
        rw [if_pos hip]
        simp [h9]
      · rw [if_neg h9] at h
        injection h with h
        subst h
        refine ⟨[], (List.append_nil _).symm, ?_, by simp⟩
        unfold location_cond
        rw [if_pos hip]
        simp [hmid, h9]
  · rw [if_neg hip] at h
    by_cases hv : location_type = "virtual"
    · rw [if_pos hv] at h
      refine ⟨["Virtual (flexible)"], apply_adjustment_ok h, ?_, by simp⟩
      unfold location_cond
      rw [if_neg hip]
      simp [hv]
    · rw [if_neg hv] at h
      injection h with h
      subst h
      refine ⟨[], (List.append_nil _).symm, ?_, by simp⟩
      unfold location_cond
      rw [if_neg hip]
      simp [hv]

theorem check_morning_buffer_reasons {sdm : Int} {settings : OrgSettings}
    {acc acc' : Acc} (h : check_morning_buffer sdm settings acc = Except.ok acc') :
    ∃ t, acc'.2 = acc.2 ++ t ∧
      (t = [] ↔ morning_buffer_cond sdm settings = false) ∧
      "Perfect slot" ∉ t := by
  unfold check_morning_buffer at h
  exact ite_adjust_reasons h (by decide)

theorem check_evening_buffer_reasons {edm : Int} {settings : OrgSettings}
    {acc acc' : Acc} (h : check_evening_buffer edm settings acc = Except.ok acc') :
    ∃ t, acc'.2 = acc.2 ++ t ∧
      (t = [] ↔ evening_buffer_cond edm settings = false) ∧
      "Perfect slot" ∉ t := by
  unfold check_evening_buffer at h
  exact ite_adjust_reasons h (by decide)

theorem check_timezones_reasons {people : List Person} {settings : OrgSettings}
    {acc acc' : Acc} (h : check_timezones people settings acc = Except.ok acc') :
    ∃ t, acc'.2 = acc.2 ++ t ∧
      (t = [] ↔ timezones_cond people = false) ∧
      "Perfect slot" ∉ t := by
  unfold check_timezones at h
  exact ite_adjust_reasons h
    (fun hcontra => timezones_ne_perfect (unique_timezones people) hcontra.symm)

theorem score_slot_ok_spec {slot : Interval} {settings : OrgSettings}
    {location_type : String} {people : List Person} {ss : ScoredSlot}
    (h : score_slot slot settings location_type people = Except.ok ss) :
    ss.start = slot.1 ∧ ss.stop = slot.2 ∧ 0 ≤ ss.score ∧ ss.reasons ≠ [] ∧
      (ss.reasons = ["Perfect slot"] ↔
        noCheckFired slot settings location_type people) := by
  unfold score_slot at h
  cases e1 : check_work_hours slot settings (100, []) with
  | error e => simp only [e1, exceptErrBind] at h; exact absurd h (by simp)
  | ok a1 =>
  simp only [e1, exceptOkBind] at h
  cases e2 : check_lunch slot settings a1 with
  | error e => simp only [e2, exceptErrBind] at h; exact absurd h (by simp)
  | ok a2 =>
  simp only [e2, exceptOkBind] at h
  cases e3 : check_early slot settings a2 with
  | error e => simp only [e3, exceptErrBind] at h; exact absurd h (by simp)
  | ok a3 =>
  simp only [e3, exceptOkBind] at h
  cases e4 : check_late slot settings a3 with
  | error e => simp only [e4, exceptErrBind] at h; exact absurd h (by simp)
  | ok a4 =>
  simp only [e4, exceptOkBind] at h
  cases e5 : check_optimal_time (hourOf slot) settings a4 with
  | error e => simp only [e5, exceptErrBind] at h; exact absurd h (by simp)
  | ok a5 =>
  simp only [e5, exceptOkBind] at h
  cases e6 : check_day_of_week (dowOf slot) settings a5 with
  | error e => simp only [e6, exceptErrBind] at h; exact absurd h (by simp)
  | ok a6 =>
  simp only [e6, exceptOkBind] at h
  cases e7 : check_location (hourOf slot) location_type settings a6 with
  | error e => simp only [e7, exceptErrBind] at h; exact absurd h (by simp)
  | ok a7 =>
  simp only [e7, exceptOkBind] at h
  cases e8 : check_morning_buffer (sdmOf slot) settings a7 with
  | error e => simp only [e8, exceptErrBind] at h; exact absurd h (by simp)
  | ok a8 =>
  simp only [e8, exceptOkBind] at h
  cases e9 : check_evening_buffer (edmOf slot) settings a8 with
  | error e => simp only [e9, exceptErrBind] at h; exact absurd h (by simp)
  | ok a9 =>
  simp only [e9, exceptOkBind] at h
  cases e10 : check_timezones people settings a9 with
  | error e => simp only [e10, exceptErrBind] at h; exact absurd h (by simp)
  | ok a10 =>
  simp only [e10, exceptOkBind] at h
  replace h : Except.ok (ScoredSlot.mk slot.1 slot.2 (max 0 a10.1)
      (if a10.2 = [] then ["Perfect slot"] else a10.2)) = Except.ok ss := h
  injection h with h
  subst h
  obtain ⟨t1, k1, c1, p1⟩ := check_work_hours_reasons e1
  obtain ⟨t2, k2, c2, p2⟩ := check_lunch_reasons e2
  obtain ⟨t3, k3, c3, p3⟩ := check_early_reasons e3
  obtain ⟨t4, k4, c4, p4⟩ := check_late_reasons e4
  obtain ⟨t5, k5, c5, p5⟩ := check_optimal_time_reasons e5
  obtain ⟨t6, k6, c6, p6⟩ := check_day_of_week_reasons e6
  obtain ⟨t7, k7, c7, p7⟩ := check_location_reasons e7
  obtain ⟨t8, k8, c8, p8⟩ := check_morning_buffer_reasons e8
  obtain ⟨t9, k9, c9, p9⟩ := check_evening_buffer_reasons e9
  obtain ⟨t10, k10, c10, p10⟩ := check_timezones_reasons e10
  have hMain : a10.2 = [] ↔ noCheckFired slot settings location_type people := by
    unfold noCheckFired
    rw [k10, k9, k8, k7, k6, k5, k4, k3, k2, k1]
    rw [← c1, ← c2, ← c3, ← c4, ← c5, ← c6, ← c7, ← c8, ← c9, ← c10]
    simp [List.append_eq_nil, and_assoc]
  refine ⟨rfl, rfl, le_max_left 0 _, ?_, ?_⟩
  · show (if a10.2 = [] then ["Perfect slot"] else a10.2) ≠ []
    by_cases hnil : a10.2 = []
    · rw [if_pos hnil]
      simp
    · rw [if_neg hnil]
      exact hnil
  · show (if a10.2 = [] then ["Perfect slot"] else a10.2) = ["Perfect slot"] ↔ _
    by_cases hnil : a10.2 = []
    · rw [if_pos hnil]
      exact iff_of_true rfl (hMain.mp hnil)
    · rw [if_neg hnil]
      refine iff_of_false ?_ (fun hc => hnil (hMain.mpr hc))
      intro hP
      have hmem : "Perfect slot" ∈ a10.2 := by
        rw [hP]
        exact List.mem_cons_self _ _
      rw [k10, k9, k8, k7, k6, k5, k4, k3, k2, k1] at hmem
      simp only [List.mem_append] at hmem
      rcases hmem with (((((((((hmem | hmem) | hmem) | hmem) | hmem) | hmem) |
        hmem) | hmem) | hmem) | hmem) | hmem
      · simp at hmem
      · exact p1 hmem
      · exact p2 hmem
      · exact p3 hmem
      · exact p4 hmem
      · exact p5 hmem
      · exact p6 hmem
      · exact p7 hmem
      · exact p8 hmem
      · exact p9 hmem
      · exact p10 hmem

theorem ite_adjust_isSome {c : Prop} [Decidable c] {d : List (String × ℚ)}
    {k : String} {f : ℚ → ℚ} {r : String} {acc : Acc}
    (hk : (d.lookup k).isSome = true) :
    ∃ acc', (if c then apply_adjustment d k f r acc else Except.ok acc) =
      Except.ok acc' := by
  by_cases hc : c
  · rw [if_pos hc]
    exact apply_adjustment_isSome hk
  · rw [if_neg hc]
    exact ⟨acc, rfl⟩

theorem score_slot_ok_of_keys (slot : Interval) (settings : OrgSettings)
    (location_type : String) (people : List Person)
    (hkeys : allKeysPresent settings) :
    ∃ ss, score_slot slot settings location_type people = Except.ok ss := by
  obtain ⟨hp, hb⟩ := hkeys
  have kp1 := hp "outside_work_hours" (by simp [referenced_penalty_keys])
  have kp2 := hp "overlaps_lunch" (by simp [referenced_penalty_keys])
  have kp3 := hp "early_morning" (by simp [referenced_penalty_keys])
  have kp4 := hp "late_evening" (by simp [referenced_penalty_keys])
  have kp5 := hp "weekend" (by simp [referenced_penalty_keys])
  have kp6 := hp "friday_afternoon" (by simp [referenced_penalty_keys])
  have kp7 := hp "no_morning_buffer" (by simp [referenced_penalty_keys])
  have kp8 := hp "no_evening_buffer" (by simp [referenced_penalty_keys])
  have kp9 := hp "per_additional_timezone" (by simp [referenced_penalty_keys])
  have kb1 := hb "optimal_time_slot" (by simp [referenced_bonus_keys])
  have kb2 := hb "monday_morning" (by simp [referenced_bonus_keys])
  have kb3 := hb "virtual_meeting" (by simp [referenced_bonus_keys])
  have kb4 := hb "in_person_midday" (by simp [referenced_bonus_keys])
  obtain ⟨a1, e1⟩ : ∃ a, check_work_hours slot settings (100, []) = Except.ok a := by
    unfold check_work_hours
    exact ite_adjust_isSome kp1
  obtain ⟨a2, e2⟩ : ∃ a, check_lunch slot settings a1 = Except.ok a := by
    unfold check_lunch
    exact ite_adjust_isSome kp2
  obtain ⟨a3, e3⟩ : ∃ a, check_early slot settings a2 = Except.ok a := by
    unfold check_early
    exact ite_adjust_isSome kp3
  obtain ⟨a4, e4⟩ : ∃ a, check_late slot settings a3 = Except.ok a := by
    unfold check_late
    exact ite_adjust_isSome kp4
  obtain ⟨a5, e5⟩ : ∃ a, check_optimal_time (hourOf slot) settings a4 = Except.ok a := by
    unfold check_optimal_time
    exact ite_adjust_isSome kb1
  obtain ⟨a6, e6⟩ : ∃ a, check_day_of_week (dowOf slot) settings a5 = Except.ok a := by
    unfold check_day_of_week
    by_cases h5 : 5 ≤ dowOf slot
    · rw [if_pos h5]
      exact apply_adjustment_isSome kp5
    · rw [if_neg h5]
      by_cases h0 : dowOf slot = 0
      · rw [if_pos h0]
        exact apply_adjustment_isSome kb2
      · rw [if_neg h0]
        by_cases h4 : dowOf slot = 4
        · rw [if_pos h4]
          exact apply_adjustment_isSome kp6
        · rw [if_neg h4]
          exact ⟨_, rfl⟩
  obtain ⟨a7, e7⟩ : ∃ a, check_location (hourOf slot) location_type settings a6 =
      Except.ok a := by
    unfold check_location
    by_cases hip : location_type = "in-person"
    · rw [if_pos hip]
      by_cases hmid : 10 ≤ hourOf slot ∧ hourOf slot < 15
      · rw [if_pos hmid]
        obtain ⟨acc2, eacc2⟩ := @apply_adjustment_isSome settings.bonuses
          "in_person_midday" (fun b => a6.1 + b) "Good time for in-person" a6 kb4
        simp only [eacc2, exceptOkBind]
        by_cases h9 : hourOf slot < 9
        · rw [if_pos h9]
          exact ⟨_, rfl⟩
        · rw [if_neg h9]
          exact ⟨_, rfl⟩
      · rw [if_neg hmid]
        simp only [exceptOkBind]
        by_cases h9 : hourOf slot < 9
        · rw [if_pos h9]
          exact ⟨_, rfl⟩
        · rw [if_neg h9]
          exact ⟨_, rfl⟩
    · rw [if_neg hip]
      by_cases hv : location_type = "virtual"
      · rw [if_pos hv]
        exact apply_adjustment_isSome kb3
      · rw [if_neg hv]
        exact ⟨_, rfl⟩
  obtain ⟨a8, e8⟩ : ∃ a, check_morning_buffer (sdmOf slot) settings a7 = Except.ok a := by
    unfold check_morning_buffer
    exact ite_adjust_isSome kp7
  obtain ⟨a9, e9⟩ : ∃ a, check_evening_buffer (edmOf slot) settings a8 = Except.ok a := by
    unfold check_evening_buffer
    exact ite_adjust_isSome kp8
  obtain ⟨a10, e10⟩ : ∃ a, check_timezones people settings a9 = Except.ok a := by
    unfold check_timezones
    exact ite_adjust_isSome kp9
  refine ⟨ScoredSlot.mk slot.1 slot.2 (max 0 a10.1)
    (if a10.2 = [] then ["Perfect slot"] else a10.2), ?_⟩
  unfold score_slot
  simp only [e1, e2, e3, e4, e5, e6, e7, e8, e9, e10, exceptOkBind]
  rfl

theorem score_all_mem {settings : OrgSettings} {location_type : String}
    {people : List Person} {l : List Interval} {ys : List ScoredSlot}
    (h : score_all settings location_type people l = Except.ok ys) :
    ∀ y ∈ ys, ∃ slot ∈ l,
      score_slot slot settings location_type people = Except.ok y := by
  induction l generalizing ys with
  | nil =>
    unfold score_all at h
    injection h with h
    subst h
    simp
  | cons slot rest ih =>
    unfold score_all at h
    cases e1 : score_slot slot settings location_type people with
    | error e =>
      simp only [e1, exceptErrBind] at h
      exact absurd h (by simp)
    | ok y =>
    simp only [e1, exceptOkBind] at h
    cases e2 : score_all settings location_type people rest with
    | error e =>
      simp only [e2, exceptErrBind] at h
      exact absurd h (by simp)
    | ok ys2 =>
    simp only [e2, exceptOkBind] at h
    replace h : Except.ok (y :: ys2) = Except.ok ys := h
    injection h with h
    subst h
    intro z hz
    rcases List.mem_cons.mp hz with hz | hz
    · subst hz
      exact ⟨slot, List.mem_cons_self _ _, e1⟩
    · obtain ⟨s2, hs2, he⟩ := ih e2 z hz
      exact ⟨s2, List.mem_cons_of_mem _ hs2, he⟩

/-! ## Stability of the selector sort -/

theorem filter_orderedInsert_score (q : ℚ) (a : ScoredSlot) (l : List ScoredSlot) :
    (List.orderedInsert scoreGe a l).filter (fun ss => decide (ss.score = q)) =
      if a.score = q then a :: l.filter (fun ss => decide (ss.score = q))
      else l.filter (fun ss => decide (ss.score = q)) := by
  induction l with
  | nil =>
    rw [List.orderedInsert]
    by_cases ha : a.score = q
    · rw [if_pos ha]
      simp [ha]
    · rw [if_neg ha]
      simp [ha]
  | cons b l ih =>
    rw [List.orderedInsert]
    by_cases hab : scoreGe a b
    · rw [if_pos hab]
      by_cases ha : a.score = q
      · rw [if_pos ha]
        rw [List.filter_cons_of_pos (by simp [ha])]
      · rw [if_neg ha]
        rw [List.filter_cons_of_neg (by simp [ha])]
    · rw [if_neg hab]
      rw [List.filter_cons, ih, List.filter_cons]
      unfold scoreGe at hab
      push_neg at hab
      by_cases ha : a.score = q
      · have hbq : ¬ (b.score = q) := by
          intro hc
          rw [← ha] at hc
          exact absurd (le_of_eq hc) (not_le.mpr hab)
        simp [ha, hbq]
      · by_cases hbq : b.score = q
        · simp [ha, hbq]
        · simp [ha, hbq]

theorem filter_insertionSort_score (q : ℚ) (l : List ScoredSlot) :
    (List.insertionSort scoreGe l).filter (fun ss => decide (ss.score = q)) =
      l.filter (fun ss => decide (ss.score = q)) := by
  induction l with
  | nil => rfl
  | cons a l ih =>
    rw [List.insertionSort, filter_orderedInsert_score, ih, List.filter_cons]
    by_cases ha : a.score = q
    · rw [if_pos ha, if_pos (by simp [ha])]
    · rw [if_neg ha, if_neg (by simp [ha])]

/-! ## Claim theorems -/

/-- C1: for every finite list of intervals with `start < end`,
`merge_intervals` returns a list sorted by start, pairwise disjoint with no
two output intervals overlapping or touching (so touching inputs are merged
into one output interval), whose union of covered minutes equals the union of
covered minutes of the input. -/
theorem merge_intervals_correct (l : List Interval)
    (hwf : ∀ iv ∈ l, iv.1 < iv.2) :
    List.Pairwise (fun a b : Interval => a.1 < b.1) (merge_intervals l) ∧
    List.Pairwise sep (merge_intervals l) ∧
    ∀ x : Int, covers (merge_intervals l) x ↔ covers l x := by
  obtain ⟨h1, h2, h3⟩ := merge_intervals_spec l hwf
  refine ⟨List.Pairwise.imp_of_mem ?_ h1, h1, h3⟩
  intro a b ha hb hsep
  have hwfa := h2 a ha
  unfold sep at hsep
  omega

/-- Witness for C1 at Scenario A's input (touching intervals 0-30/30-60). -/
theorem merge_intervals_correct_witness :
    (∀ iv ∈ [((0:Int), (30:Int)), (30, 60), (90, 120)], iv.1 < iv.2) ∧
    (List.Pairwise (fun a b : Interval => a.1 < b.1)
        (merge_intervals [(0, 30), (30, 60), (90, 120)]) ∧
      List.Pairwise sep (merge_intervals [(0, 30), (30, 60), (90, 120)]) ∧
      ∀ x : Int, covers (merge_intervals [(0, 30), (30, 60), (90, 120)]) x ↔
        covers [(0, 30), (30, 60), (90, 120)] x) :=
  ⟨by decide, merge_intervals_correct [(0, 30), (30, 60), (90, 120)] (by decide)⟩

/-- C2: for a window `[w_start, w_end)` and busy intervals that are sorted,
pairwise separated and clipped to the window (as produced by merging the
clipped events), `busy_to_free` returns free intervals that are sorted and
separated, lie inside the window, and cover exactly the minutes of the window
not covered by the busy intervals (each window minute is in exactly one of
the two sets). -/
theorem busy_to_free_partition (busy : List Interval) (w_start w_end : Int)
    (hw : w_start < w_end) (hsep : List.Pairwise sep busy)
    (hin : ∀ iv ∈ busy, w_start ≤ iv.1 ∧ iv.1 < iv.2 ∧ iv.2 ≤ w_end) :
    List.Pairwise sep (busy_to_free busy w_start w_end) ∧
    (∀ iv ∈ busy_to_free busy w_start w_end,
      w_start ≤ iv.1 ∧ iv.1 < iv.2 ∧ iv.2 ≤ w_end) ∧
    ∀ x : Int, w_start ≤ x → x < w_end →
      (covers (busy_to_free busy w_start w_end) x ↔ ¬ covers busy x) := by
  unfold busy_to_free
  exact btfLoop_spec busy w_end w_start hsep hin

/-- Witness for C2 at a two-interval busy set inside `[0, 60)`. -/
theorem busy_to_free_partition_witness :
    ((0:Int) < 60 ∧ List.Pairwise sep [((10:Int), (20:Int)), (30, 40)] ∧
      ∀ iv ∈ [((10:Int), (20:Int)), (30, 40)],
        (0:Int) ≤ iv.1 ∧ iv.1 < iv.2 ∧ iv.2 ≤ 60) ∧
    (List.Pairwise sep (busy_to_free [(10, 20), (30, 40)] 0 60) ∧
      (∀ iv ∈ busy_to_free [(10, 20), (30, 40)] 0 60,
        (0:Int) ≤ iv.1 ∧ iv.1 < iv.2 ∧ iv.2 ≤ 60) ∧
      ∀ x : Int, 0 ≤ x → x < 60 →
        (covers (busy_to_free [(10, 20), (30, 40)] 0 60) x ↔
          ¬ covers [(10, 20), (30, 40)] x)) :=
  ⟨⟨by decide, by decide, by decide⟩,
    busy_to_free_partition [(10, 20), (30, 40)] 0 60 (by decide) (by decide)
      (by decide)⟩

/-- C3: with positive duration and grid, every generated slot has
`end - start = duration`, starts on a multiple of `interval_minutes`, and lies
inside one of the free gaps; the output is the concatenation of the per-gap
slot lists in gap order; within a gap the starts strictly increase; and the
first slot of a gap starts at the smallest grid multiple that is at least the
gap's start. -/
theorem generate_candidate_slots_valid (free : List Interval) (d i : Int)
    (hd : 0 < d) (hi : 0 < i) :
    (∀ slot ∈ generate_candidate_slots free d i,
      slot.2 - slot.1 = d ∧ slot.1 % i = 0 ∧
        ∃ g ∈ free, g.1 ≤ slot.1 ∧ slot.2 ≤ g.2) ∧
    (generate_candidate_slots free d i =
      free.flatMap fun g => generate_candidate_slots [g] d i) ∧
    (∀ g : Interval, List.Pairwise (fun a b : Interval => a.1 < b.1)
      (generate_candidate_slots [g] d i)) ∧
    ∀ (g x : Interval) (rest : List Interval),
      generate_candidate_slots [g] d i = x :: rest →
      x.1 % i = 0 ∧ g.1 ≤ x.1 ∧ ∀ m : Int, m % i = 0 → g.1 ≤ m → x.1 ≤ m := by
  refine ⟨fun slot hm => ?_, generate_candidate_slots_gap_order free d i,
    fun g => generate_candidate_slots_single_sorted g d i,
    fun g x rest h => generate_candidate_slots_first g d i hi x rest h⟩
  obtain ⟨h1, h2, h3⟩ := generate_candidate_slots_mem free d i hi slot hm
  exact ⟨h1, h2, h3⟩

/-- Witness for C3 at Scenario B's input (one gap `[0, 90)`, duration 60,
grid 15). -/
theorem generate_candidate_slots_valid_witness :
    ((0:Int) < 60 ∧ (0:Int) < 15) ∧
    ((∀ slot ∈ generate_candidate_slots [((0:Int), (90:Int))] 60 15,
      slot.2 - slot.1 = 60 ∧ slot.1 % 15 = 0 ∧
        ∃ g ∈ [((0:Int), (90:Int))], g.1 ≤ slot.1 ∧ slot.2 ≤ g.2) ∧
    (generate_candidate_slots [((0:Int), (90:Int))] 60 15 =
      [((0:Int), (90:Int))].flatMap fun g => generate_candidate_slots [g] 60 15) ∧
    (∀ g : Interval, List.Pairwise (fun a b : Interval => a.1 < b.1)
      (generate_candidate_slots [g] 60 15)) ∧
    ∀ (g x : Interval) (rest : List Interval),
      generate_candidate_slots [g] 60 15 = x :: rest →
      x.1 % 15 = 0 ∧ g.1 ≤ x.1 ∧ ∀ m : Int, m % 15 = 0 → g.1 ≤ m → x.1 ≤ m) :=
  ⟨⟨by decide, by decide⟩,
    generate_candidate_slots_valid [((0:Int), (90:Int))] 60 15 (by decide)
      (by decide)⟩

theorem clip_interval_some {iv civ : Interval} {w_start w_end : Int}
    (h : clip_interval iv w_start w_end = some civ) :
    w_start ≤ civ.1 ∧ civ.1 < civ.2 ∧ civ.2 ≤ w_end := by
  unfold clip_interval at h
  by_cases hc : min iv.2 w_end ≤ max iv.1 w_start
  · rw [if_pos hc] at h
    exact absurd h (by simp)
  · rw [if_neg hc] at h
    injection h with h
    subst h
    push_neg at hc
    refine ⟨le_max_right _ _, hc, min_le_right _ _⟩

/-- C4: every ScoredSlot returned by `find_optimal_slots` denotes an interval
inside the window, of length `duration`, that intersects no event of any
person once that event is clipped to the window. -/
theorem find_optimal_slots_valid (people : List Person)
    (window_start window_end duration : Int) (location_type : String)
    (settings : OrgSettings) (top_k : Nat) (out : List ScoredSlot)
    (hw : window_start < window_end) (hd : 0 < duration)
    (hi : 0 < settings.interval_minutes)
    (h : find_optimal_slots people window_start window_end duration
      location_type settings top_k = Except.ok out) :
    ∀ ss ∈ out, window_start ≤ ss.start ∧ ss.stop ≤ window_end ∧
      ss.stop - ss.start = duration ∧
      ∀ p ∈ people, ∀ ev ∈ p.events, ∀ civ : Interval,
        clip_interval (ev.start, ev.stop) window_start window_end = some civ →
        ∀ x : Int, ss.start ≤ x → x < ss.stop → ¬ (civ.1 ≤ x ∧ x < civ.2) := by
  have hclwf : ∀ civ ∈ people.flatMap (fun person =>
      person.events.filterMap fun event =>
        clip_interval (event.start, event.stop) window_start window_end),
      window_start ≤ civ.1 ∧ civ.1 < civ.2 ∧ civ.2 ≤ window_end := by
    intro civ hm
    rw [List.mem_flatMap] at hm
    obtain ⟨p, -, hm⟩ := hm
    rw [List.mem_filterMap] at hm
    obtain ⟨ev, -, hm⟩ := hm
    exact clip_interval_some hm
  have hbusy_sep_wf := merge_intervals_spec _
    (fun iv hm => (hclwf iv hm).2.1)
  obtain ⟨hbsep, hbwf, hbcov⟩ := hbusy_sep_wf
  have hbbounds := merge_intervals_bounds _ window_start window_end
    (fun iv hm => ⟨(hclwf iv hm).1, (hclwf iv hm).2.2⟩)
  have hbin : ∀ iv ∈ get_all_busy_intervals people window_start window_end,
      window_start ≤ iv.1 ∧ iv.1 < iv.2 ∧ iv.2 ≤ window_end := by
    intro iv hm
    unfold get_all_busy_intervals at hm
    exact ⟨(hbbounds iv hm).1, hbwf iv hm, (hbbounds iv hm).2⟩
  obtain ⟨hfsep, hfbounds, hfcov⟩ := btfLoop_spec
    (get_all_busy_intervals people window_start window_end) window_end
    window_start hbsep hbin
  simp only [find_optimal_slots] at h
  by_cases hfree : busy_to_free
      (get_all_busy_intervals people window_start window_end)
      window_start window_end = []
  · rw [if_pos hfree] at h
    injection h with h
    subst h
    simp
  · rw [if_neg hfree] at h
    by_cases hcand : generate_candidate_slots
        (busy_to_free (get_all_busy_intervals people window_start window_end)
          window_start window_end) duration settings.interval_minutes = []
    · rw [if_pos hcand] at h
      injection h with h
      subst h
      simp
    · rw [if_neg hcand] at h
      cases esc : score_all settings location_type people
          (generate_candidate_slots
            (busy_to_free (get_all_busy_intervals people window_start window_end)
              window_start window_end) duration settings.interval_minutes) with
      | error e =>
        simp only [esc, exceptErrBind] at h
        exact absurd h (by simp)
      | ok scored =>
        simp only [esc, exceptOkBind] at h
        replace h : Except.ok (select_top_k scored top_k) = Except.ok out := h
        injection h with h
        subst h
        intro ss hss
        have hsorted : ss ∈ List.insertionSort scoreGe scored :=
          List.mem_of_mem_take hss
        have hscored : ss ∈ scored := (List.mem_insertionSort scoreGe).mp hsorted
        obtain ⟨slot, hslot, hok⟩ := score_all_mem esc ss hscored
        obtain ⟨hstart, hstop, -, -, -⟩ := score_slot_ok_spec hok
        obtain ⟨hlen, -, g, hg, hg1, hg2⟩ :=
          generate_candidate_slots_mem _ duration settings.interval_minutes hi
            slot hslot
        obtain ⟨hgw1, hgwf, hgw2⟩ := hfbounds g hg
        refine ⟨?_, ?_, ?_, ?_⟩
        · rw [hstart]; omega
        · rw [hstop]; omega
        · rw [hstart, hstop]; omega
        · intro p hp ev hev civ hclip x hx1 hx2 hxin
          rw [hstart] at hx1
          rw [hstop] at hx2
          have hxw1 : window_start ≤ x := by omega
          have hxw2 : x < window_end := by omega
          have hxfree : covers (busy_to_free
              (get_all_busy_intervals people window_start window_end)
              window_start window_end) x := by
            refine ⟨g, hg, ?_, ?_⟩ <;> omega
          have hnotbusy := (hfcov x hxw1 hxw2).mp hxfree
          have hcivmem : civ ∈ people.flatMap (fun person =>
              person.events.filterMap fun event =>
                clip_interval (event.start, event.stop)
                  window_start window_end) := by
            rw [List.mem_flatMap]
            refine ⟨p, hp, ?_⟩
            rw [List.mem_filterMap]
            exact ⟨ev, hev, hclip⟩
          have hbusyx : covers
              (get_all_busy_intervals people window_start window_end) x := by
            unfold get_all_busy_intervals
            exact (hbcov x).mpr ⟨civ, hcivmem, hxin⟩
          exact hnotbusy hbusyx

/-- Witness for C4: one participant busy `[0, 30)` in window `[0, 120)`, one
90-minute candidate. -/
theorem find_optimal_slots_valid_witness :
    ((0:Int) < 120 ∧ (0:Int) < 90 ∧ 0 < settingsFull.interval_minutes ∧
      find_optimal_slots [personB] 0 120 90 "virtual" settingsFull 5 =
        Except.ok [ScoredSlot.mk 30 120 (max 0 (100 - 0 - 0 + 5 + 5))
          ["Outside work hours", "Early morning", "Monday (fresh start)",
            "Virtual (flexible)"]]) ∧
    ∀ ss ∈ [ScoredSlot.mk 30 120 (max 0 (100 - 0 - 0 + 5 + 5))
        ["Outside work hours", "Early morning", "Monday (fresh start)",
          "Virtual (flexible)"]],
      (0:Int) ≤ ss.start ∧ ss.stop ≤ 120 ∧ ss.stop - ss.start = 90 ∧
      ∀ p ∈ [personB], ∀ ev ∈ p.events, ∀ civ : Interval,
        clip_interval (ev.start, ev.stop) 0 120 = some civ →
        ∀ x : Int, ss.start ≤ x → x < ss.stop → ¬ (civ.1 ≤ x ∧ x < civ.2) :=
  ⟨⟨by decide, by decide, by decide, rfl⟩,
    find_optimal_slots_valid [personB] 0 120 90 "virtual" settingsFull 5 _
      (by decide) (by decide) (by decide) rfl⟩

/-- C5: the Top-K Selector returns at most `top_k` slots, ordered by score
descending, and the stable sort preserves candidate order among equal scores:
for every score value, the selected slots with that score are a sublist of
the scored candidates with that score in their original (generation) order. -/
theorem select_top_k_spec (scored_slots : List ScoredSlot) (top_k : Nat) :
    (select_top_k scored_slots top_k).length ≤ top_k ∧
    List.Pairwise scoreGe (select_top_k scored_slots top_k) ∧
    ∀ q : ℚ, List.Sublist
      ((select_top_k scored_slots top_k).filter (fun ss => decide (ss.score = q)))
      (scored_slots.filter (fun ss => decide (ss.score = q))) := by
  refine ⟨?_, ?_, ?_⟩
  · unfold select_top_k
    rw [List.length_take]
    exact min_le_left _ _
  · unfold select_top_k
    have hs : List.Pairwise scoreGe (List.insertionSort scoreGe scored_slots) :=
      List.sorted_insertionSort scoreGe scored_slots
    exact List.Pairwise.sublist (List.take_sublist _ _) hs
  · intro q
    unfold select_top_k
    have h2 := (List.take_sublist top_k
      (List.insertionSort scoreGe scored_slots)).filter
      (fun ss => decide (ss.score = q))
    rw [filter_insertionSort_score] at h2
    exact h2

/-- C6: Scenario C — a Monday 10:15-11:15 virtual slot under the scenario's
settings scores exactly 120 with exactly the three reasons, in evaluation
order. -/
theorem score_slot_scenario_c :
    score_slot (615, 675) settingsFull "virtual" [person0] =
      Except.ok (ScoredSlot.mk 615 675 120
        ["Optimal time of day", "Monday (fresh start)", "Virtual (flexible)"]) := by
  rw [show score_slot (615, 675) settingsFull "virtual" [person0] =
      Except.ok (ScoredSlot.mk 615 675 (max 0 (100 + 10 + 5 + 5))
        ["Optimal time of day", "Monday (fresh start)", "Virtual (flexible)"]) from rfl,
    max_eq_right (by norm_num : (0:ℚ) ≤ 100 + 10 + 5 + 5)]
  norm_num


/-- C9: when the free-gap set is empty or no candidate fits, the pipeline
returns the empty list and raises no error. -/
theorem find_optimal_slots_empty (people : List Person)
    (window_start window_end duration : Int) (location_type : String)
    (settings : OrgSettings) (top_k : Nat)
    (h : busy_to_free (get_all_busy_intervals people window_start window_end)
          window_start window_end = [] ∨
        generate_candidate_slots
          (busy_to_free (get_all_busy_intervals people window_start window_end)
            window_start window_end) duration settings.interval_minutes = []) :
    find_optimal_slots people window_start window_end duration location_type
      settings top_k = Except.ok [] := by
  simp only [find_optimal_slots]
  rcases h with h | h
  · rw [if_pos h]
  · by_cases hfree : busy_to_free
        (get_all_busy_intervals people window_start window_end)
        window_start window_end = []
    · rw [if_pos hfree]
    · rw [if_neg hfree, if_pos h]

/-- Witness for C9: a window fully consumed by one participant's event. -/
theorem find_optimal_slots_empty_witness :
    (busy_to_free (get_all_busy_intervals [personB] 0 30) 0 30 = [] ∨
      generate_candidate_slots (busy_to_free (get_all_busy_intervals [personB] 0 30)
        0 30) 60 settingsFull.interval_minutes = []) ∧
    find_optimal_slots [personB] 0 30 60 "virtual" settingsFull 5 =
      Except.ok [] :=
  ⟨Or.inl (by decide),
    find_optimal_slots_empty [personB] 0 30 60 "virtual" settingsFull 5
      (Or.inl (by decide))⟩

/-- C10: every ScoredSlot produced by `score_slot` has score at least 0 and a
non-empty reasons list, equal to `["Perfect slot"]` exactly when no check
fired; and there is no upper clamp — a concrete bonus-stacking input yields a
score above 100. -/
theorem score_slot_bounds :
    (∀ (slot : Interval) (settings : OrgSettings) (location_type : String)
        (people : List Person) (ss : ScoredSlot),
      score_slot slot settings location_type people = Except.ok ss →
        0 ≤ ss.score ∧ ss.reasons ≠ [] ∧
          (ss.reasons = ["Perfect slot"] ↔
            noCheckFired slot settings location_type people)) ∧
    ∃ ss : ScoredSlot,
      score_slot (615, 675) settingsFull "virtual" [person0] = Except.ok ss ∧
        100 < ss.score := by
  constructor
  · intro slot settings location_type people ss h
    obtain ⟨-, -, h3, h4, h5⟩ := score_slot_ok_spec h
    exact ⟨h3, h4, h5⟩
  · refine ⟨ScoredSlot.mk 615 675 120
      ["Optimal time of day", "Monday (fresh start)", "Virtual (flexible)"],
      ?_, by norm_num⟩
    rw [show score_slot (615, 675) settingsFull "virtual" [person0] =
        Except.ok (ScoredSlot.mk 615 675 (max 0 (100 + 10 + 5 + 5))
          ["Optimal time of day", "Monday (fresh start)", "Virtual (flexible)"]) from rfl,
      max_eq_right (by norm_num : (0:ℚ) ≤ 100 + 10 + 5 + 5)]
    norm_num

/-- Witness for C10 at the Scenario C input. -/
theorem score_slot_bounds_witness :
    0 ≤ (ScoredSlot.mk 615 675 120
        ["Optimal time of day", "Monday (fresh start)", "Virtual (flexible)"]).score ∧
    (ScoredSlot.mk 615 675 120
        ["Optimal time of day", "Monday (fresh start)", "Virtual (flexible)"]).reasons ≠ [] ∧
    ((ScoredSlot.mk 615 675 120
        ["Optimal time of day", "Monday (fresh start)", "Virtual (flexible)"]).reasons =
          ["Perfect slot"] ↔
      noCheckFired (615, 675) settingsFull "virtual" [person0]) :=
  score_slot_bounds.1 (615, 675) settingsFull "virtual" [person0] _
    (by
      rw [show score_slot (615, 675) settingsFull "virtual" [person0] =
          Except.ok (ScoredSlot.mk 615 675 (max 0 (100 + 10 + 5 + 5))
            ["Optimal time of day", "Monday (fresh start)", "Virtual (flexible)"]) from rfl,
        max_eq_right (by norm_num : (0:ℚ) ≤ 100 + 10 + 5 + 5)]
      norm_num)

set_option maxRecDepth 8192 in
set_option maxHeartbeats 1600000 in
/-- C7 counterexample: with every penalty key absent from the settings, the
pipeline does not raise any configuration error before (or during) scoring —
it scores a slot successfully and returns it, because no check referencing a
missing key fires. -/
theorem missing_key_no_fail_fast :
    settingsNoKeys.penalties.lookup "outside_work_hours" = none ∧
    find_optimal_slots [person0] 615 675 60 "virtual" settingsNoKeys 5 =
      Except.ok [ScoredSlot.mk 615 675 120
        ["Optimal time of day", "Monday (fresh start)", "Virtual (flexible)"]] := by
  refine ⟨rfl, ?_⟩
  rw [show find_optimal_slots [person0] 615 675 60 "virtual" settingsNoKeys 5 =
      Except.ok [ScoredSlot.mk 615 675 (max 0 (100 + 10 + 5 + 5))
        ["Optimal time of day", "Monday (fresh start)", "Virtual (flexible)"]] from rfl,
    max_eq_right (by norm_num : (0:ℚ) ≤ 100 + 10 + 5 + 5)]
  norm_num

/-- C7 amended: a missing penalties/bonuses key raises a KeyError lazily,
while scoring the individual slot whose check references it, not before
scoring; when every referenced key is present, scoring never raises. -/
theorem missing_key_lazy_behavior :
    (∀ (slot : Interval) (settings : OrgSettings) (location_type : String)
        (people : List Person), allKeysPresent settings →
      ∃ ss, score_slot slot settings location_type people = Except.ok ss) ∧
    score_slot (0, 60) settingsNoKeys "virtual" [person0] =
      Except.error "outside_work_hours" ∧
    score_slot (615, 675) settingsNoKeys "virtual" [person0] =
      Except.ok (ScoredSlot.mk 615 675 120
        ["Optimal time of day", "Monday (fresh start)", "Virtual (flexible)"]) := by
  refine ⟨fun slot settings lt people hk =>
    score_slot_ok_of_keys slot settings lt people hk, ?_, ?_⟩
  · rfl
  · rw [show score_slot (615, 675) settingsNoKeys "virtual" [person0] =
        Except.ok (ScoredSlot.mk 615 675 (max 0 (100 + 10 + 5 + 5))
          ["Optimal time of day", "Monday (fresh start)", "Virtual (flexible)"]) from rfl,
      max_eq_right (by norm_num : (0:ℚ) ≤ 100 + 10 + 5 + 5)]
    norm_num

/-- Witness for C7's amended claim at settings with all keys present. -/
theorem missing_key_lazy_behavior_witness :
    allKeysPresent settingsFull ∧
    ∃ ss, score_slot (0, 0) settingsFull "hybrid" [] = Except.ok ss :=
  ⟨by refine ⟨?_, ?_⟩ <;> decide,
    missing_key_lazy_behavior.1 (0, 0) settingsFull "hybrid" []
      (by refine ⟨?_, ?_⟩ <;> decide)⟩

set_option maxRecDepth 8192 in
set_option maxHeartbeats 1600000 in
/-- C8 counterexample: a duration longer than the window returns `ok []`, and
a zero duration also proceeds without error, instead of raising a
ValidationError. -/
theorem duration_not_validated :
    create_meeting_with_dates 0 60 [person0] 61 "virtual" settingsNoKeys 5 =
      Except.ok [] ∧
    (create_meeting_with_dates 0 1 [person0] 0 "virtual" settingsFull 5).isOk =
      true := by
  constructor
  · rfl
  · rfl

set_option maxRecDepth 8192 in
set_option maxHeartbeats 1600000 in
/-- C8 amended: `create_meeting_with_dates` validates only the window order
(raising before any interval computation when `window_end ≤ window_start`);
durations exceeding the window length or non-positive durations are not
validated and do not raise. -/
theorem create_meeting_validation :
    (∀ (ws we : Int) (people : List Person) (duration : Int)
        (location_type : String) (settings : OrgSettings) (top_k : Nat),
      we ≤ ws →
        create_meeting_with_dates ws we people duration location_type settings
          top_k = Except.error "window_end_dt must be after window_start_dt") ∧
    create_meeting_with_dates 0 60 [person0] 61 "virtual" settingsNoKeys 5 =
      Except.ok [] ∧
    (create_meeting_with_dates 0 1 [person0] 0 "virtual" settingsFull 5).isOk =
      true := by
  refine ⟨?_, ?_, ?_⟩
  · intro ws we people duration lt settings k h
    unfold create_meeting_with_dates
    rw [if_pos h]
  · rfl
  · rfl

/-- Witness for C8's amended claim at a reversed window. -/
theorem create_meeting_validation_witness :
    create_meeting_with_dates 5 3 [] 60 "virtual" settingsNoKeys 5 =
      Except.error "window_end_dt must be after window_start_dt" :=
  create_meeting_validation.1 5 3 [] 60 "virtual" settingsNoKeys 5 (by decide)

end Clockwork
